import Mathlib

/-!
Verification of the calculator input/evaluation state machine of this
repository.  Two engine variants are embedded:

* namespace `App`  — the engine of `src/src/App.tsx` (display, expression,
  history, waitingForOperand, pendingOperator, savedValue);
* namespace `V0`   — the engine of `src/unnamed/part_000` (currentOperand,
  previousOperand, operation, overwrite, history).

Numbers are modelled by exact rationals (`ℚ`); JavaScript `NaN` is modelled
by `Option ℚ` with `none` for `NaN`.  The `toFixed(k)` / `parseFloat` /
`String(...)` pipeline of the source is embedded as rounding to `k` decimal
places followed by canonical decimal printing.  Double-precision range and
precision artifacts (overflow to `Infinity`, shortest-roundtrip printing of
non-decimal rationals) are outside this model; no theorem below depends on
them.  Strings are manipulated through their character lists, mirroring the
JavaScript string operations (`+`, `slice(0,-1)`, `includes('.')`) directly.
The part_000 variant has no zero-divisor guard: a division by zero produces
a non-finite double whose formatting then throws in the source, and that
crash is modelled explicitly by the crash-aware step `V0.stepC`.
-/

/-- Numeric value of a decimal digit character. -/
def dval (c : Char) : ℕ := c.toNat - 48

/-- Value of a list of decimal digit characters, most significant first. -/
def digitsToNat (l : List Char) : ℕ := l.foldl (fun a c => a * 10 + dval c) 0

/-- Leading-sign handling of JavaScript `parseFloat`: strips one leading
`-` (recording it) or `+`. -/
def parseSign (l : List Char) : Bool × List Char :=
  match l with
  | c :: t => if c = '-' then (true, t) else if c = '+' then (false, t) else (false, c :: t)
  | [] => (false, [])

/-- Fraction digits after a leading decimal point, if the remainder of the
input starts with one. -/
def fracPart (l : List Char) : List Char :=
  match l with
  | c :: t => if c = '.' then t.takeWhile Char.isDigit else []
  | [] => []

/-- Rational addition, written out through `mkRat` (the library's `Rat.add`
is sealed against unfolding, which would block evaluation of the theorems'
concrete instances). -/
def qAdd (a b : ℚ) : ℚ := mkRat (a.num * b.den + b.num * a.den) (a.den * b.den)

/-- Rational subtraction through `mkRat`. -/
def qSub (a b : ℚ) : ℚ := mkRat (a.num * b.den - b.num * a.den) (a.den * b.den)

/-- Rational multiplication through `mkRat`. -/
def qMul (a b : ℚ) : ℚ := mkRat (a.num * b.num) (a.den * b.den)

/-- Rational division through `mkRat` (division by zero yields zero; the
engine only divides after its own zero test, see `App.calculate`). -/
def qDiv (a b : ℚ) : ℚ := mkRat (Int.sign b.num * a.num * b.den) (a.den * b.num.natAbs)

/-- Rational negation through `mkRat`. -/
def qNeg (a : ℚ) : ℚ := mkRat (-a.num) a.den

/-- JavaScript `parseFloat` on the strings this program produces: an optional
sign, an integer digit run, an optional fraction; any junk suffix is ignored;
`none` models `NaN` (no digits at all).  Exponents and `Infinity` never occur
in the strings the engine builds, so they are not parsed. -/
def parseFloatQ (s : String) : Option ℚ :=
  let p := parseSign s.data
  let intD := p.2.takeWhile Char.isDigit
  let fracD := fracPart (p.2.dropWhile Char.isDigit)
  if intD = [] ∧ fracD = [] then none
  else
    let m : ℚ := mkRat (digitsToNat (intD ++ fracD)) (10 ^ fracD.length)
    some (if p.1 then qNeg m else m)

/-- Decimal digits of a natural number, most significant first (fuel-driven
so that it reduces by computation). -/
def natDigitsAux : ℕ → ℕ → List Char
  | 0, _ => []
  | f + 1, n =>
      if n < 10 then [Nat.digitChar n]
      else natDigitsAux f (n / 10) ++ [Nat.digitChar (n % 10)]

/-- Decimal digits of a natural number, most significant first. -/
def natDigits (n : ℕ) : List Char := natDigitsAux (n + 1) n

/-- Drop trailing `'0'` characters. -/
def trimZeros (l : List Char) : List Char := (l.reverse.dropWhile (· == '0')).reverse

/-- Fraction digits of `n / 10 ^ e` in canonical form: the remainder's
digits padded to `e` places, with trailing zeros removed. -/
def canonFrac (a : ℕ) (e : ℕ) : List Char :=
  trimZeros (List.replicate (e - (natDigits (a % 10 ^ e)).length) '0' ++ natDigits (a % 10 ^ e))

/-- Unsigned part of the canonical decimal rendering of `a / 10 ^ e`:
integer digits, then the fraction digits when any remain (the decimal point
disappears with an empty fraction). -/
def scaledCanonBody (a : ℕ) (e : ℕ) : List Char :=
  if canonFrac a e = [] then natDigits (a / 10 ^ e)
  else natDigits (a / 10 ^ e) ++ '.' :: canonFrac a e

/-- Canonical decimal rendering of the value `n / 10 ^ e`, as produced by
JavaScript `String(parseFloat(x))` for a number with at most `e` decimal
places: optional minus sign, integer digits, and the fraction digits with
trailing zeros removed. -/
def scaledCanon (n : ℤ) (e : ℕ) : String :=
  String.mk (if n < 0 then '-' :: scaledCanonBody n.natAbs e else scaledCanonBody n.natAbs e)

/-- Rounding of `toFixed (e)` per the ECMAScript specification: the integer
`n` with `n / 10 ^ e` closest to the value, the larger one on ties. -/
def fixRound (q : ℚ) (e : ℕ) : ℤ := Rat.floor (qAdd (qMul q (mkRat (10 ^ e) 1)) (mkRat 1 2))

/-- The `String(parseFloat(x.toFixed(e)))` pipeline of the source, with `NaN`
passed through: round to `e` decimal places, then print canonically. -/
def fmtFixed (e : ℕ) : Option ℚ → String
  | none => "NaN"
  | some q => scaledCanon (fixRound q e) e

/-- NaN-propagating lift of a binary rational operation. -/
def liftQ (f : ℚ → ℚ → ℚ) : Option ℚ → Option ℚ → Option ℚ
  | some a, some b => some (f a b)
  | _, _ => none

/-- Multiplicity of `p` in `n` (fuel-driven). -/
def pMultAux (p : ℕ) : ℕ → ℕ → ℕ
  | 0, _ => 0
  | f + 1, n => if 2 ≤ p ∧ 0 < n ∧ n % p = 0 then pMultAux p f (n / p) + 1 else 0

/-- JavaScript `Number.prototype.toString` on the engine's values: exact
canonical decimal printing when the (reduced) denominator is of the form
`2 ^ a * 5 ^ b`; other denominators — which no claim exercises — are
approximated by rounding to 17 decimal places, standing in for the
17-significant-digit shortest-roundtrip printing of doubles. -/
def ratToStr (q : ℚ) : String :=
  let d := q.den
  let a := pMultAux 2 d d
  let b := pMultAux 5 d d
  if d = 2 ^ a * 5 ^ b then
    let k := max a b
    scaledCanon (q.num * ((10 ^ k / d : ℕ) : ℤ)) k
  else scaledCanon (fixRound q 17) 17

/-- String of NaN or a number, as JavaScript `String(value)`. -/
def jsStr : Option ℚ → String
  | none => "NaN"
  | some q => ratToStr q

/-- Append one character to a string (JavaScript `display + digit`). -/
def pushC (s : String) (c : Char) : String := String.mk (s.data ++ [c])

/-- Drop the final character of a string (JavaScript `display.slice(0, -1)`). -/
def dropLastC (s : String) : String := String.mk s.data.dropLast

namespace App

/-- History entry of `src/src/App.tsx` (`interface HistoryItem`). -/
structure HistoryItem where
  expression : String
  result : String
deriving DecidableEq

/-- The engine state cells of `src/src/App.tsx` (`showHistory` and purely
presentational state are omitted as out of scope). -/
structure CalcState where
  display : String
  expression : String
  history : List HistoryItem
  waitingForOperand : Bool
  pendingOperator : Option String
  savedValue : Option String
deriving DecidableEq

/-- Initial state of the component's `useState` cells. -/
def initState : CalcState :=
  { display := "0", expression := "", history := [], waitingForOperand := false,
    pendingOperator := none, savedValue := none }

/-- JavaScript truthiness of a `string | null` state cell: `null` and the
empty string are falsy. -/
def truthyS : Option String → Bool
  | none => false
  | some v => !(v == "")

/-- The `calculate` helper of `src/src/App.tsx` (lines 18-46). -/
def calculate (savedValue : Option String) (rightOperand pendingOp : String) : String :=
  if truthyS savedValue = false then rightOperand
  else
    let current := parseFloatQ rightOperand
    let previous := parseFloatQ (savedValue.getD "")
    if pendingOp = "+" then fmtFixed 8 (liftQ qAdd previous current)
    else if pendingOp = "-" then fmtFixed 8 (liftQ qSub previous current)
    else if pendingOp = "×" ∨ pendingOp = "*" then fmtFixed 8 (liftQ qMul previous current)
    else if pendingOp = "÷" ∨ pendingOp = "/" then
      if current = some 0 then "Error" else fmtFixed 8 (liftQ qDiv previous current)
    else rightOperand

/-- `handleDigit` of `src/src/App.tsx` (lines 48-61). -/
def handleDigit (c : Char) (s : CalcState) : CalcState :=
  if s.display = "Error" then
    { s with display := String.mk [c], waitingForOperand := false }
  else if s.waitingForOperand then
    { s with display := String.mk [c], waitingForOperand := false }
  else
    { s with display := if s.display = "0" then String.mk [c] else pushC s.display c }

/-- `handleOperator` of `src/src/App.tsx` (lines 63-86). -/
def handleOperator (nextOperator : String) (s : CalcState) : CalcState :=
  if s.display = "Error" then s
  else
    let inputValue := s.display
    if truthyS s.savedValue = true ∧ truthyS s.pendingOperator = true ∧
        s.waitingForOperand = false then
      let newValue := calculate s.savedValue inputValue (s.pendingOperator.getD "")
      if newValue = "Error" then
        { s with display := "Error", savedValue := none, pendingOperator := none }
      else
        { s with display := newValue, savedValue := some newValue,
                 expression := newValue ++ " " ++ nextOperator,
                 waitingForOperand := true, pendingOperator := some nextOperator }
    else
      { s with savedValue := some inputValue,
               expression := inputValue ++ " " ++ nextOperator,
               waitingForOperand := true, pendingOperator := some nextOperator }

/-- The history entry built by `handleEqual` on a successful evaluation. -/
def newItem (s : CalcState) : HistoryItem :=
  { expression := (s.savedValue.getD "") ++ " " ++ (s.pendingOperator.getD "") ++ " " ++ s.display,
    result := calculate s.savedValue s.display (s.pendingOperator.getD "") }

/-- `handleEqual` of `src/src/App.tsx` (lines 88-107). -/
def handleEqual (s : CalcState) : CalcState :=
  if truthyS s.savedValue = true ∧ truthyS s.pendingOperator = true ∧
      ¬ s.display = "Error" then
    let result := calculate s.savedValue s.display (s.pendingOperator.getD "")
    { s with display := result, expression := "", savedValue := none,
             pendingOperator := none, waitingForOperand := true,
             history := if ¬ result = "Error" then (newItem s :: s.history).take 50
                        else s.history }
  else s

/-- `handleClear` of `src/src/App.tsx` (lines 109-115). -/
def handleClear (s : CalcState) : CalcState :=
  { s with display := "0", expression := "", savedValue := none,
           pendingOperator := none, waitingForOperand := false }

/-- `handleBackspace` of `src/src/App.tsx` (lines 117-121). -/
def handleBackspace (s : CalcState) : CalcState :=
  if s.waitingForOperand = true ∨ s.display = "Error" then s
  else { s with display := if 1 < s.display.data.length then dropLastC s.display else "0" }

/-- `handleDot` of `src/src/App.tsx` (lines 123-130). -/
def handleDot (s : CalcState) : CalcState :=
  if s.waitingForOperand then { s with display := "0.", waitingForOperand := false }
  else if s.display.data.contains '.' = false then { s with display := pushC s.display '.' }
  else s

/-- `handlePercentage` of `src/src/App.tsx` (lines 132-136). -/
def handlePercentage (s : CalcState) : CalcState :=
  if s.display = "Error" then s
  else { s with display := jsStr ((parseFloatQ s.display).map (fun q => qDiv q (mkRat 100 1))) }

/-- `handleSignToggle` of `src/src/App.tsx` (lines 138-142). -/
def handleSignToggle (s : CalcState) : CalcState :=
  if s.display = "Error" then s
  else { s with display := jsStr ((parseFloatQ s.display).map (fun q => qMul q (mkRat (-1) 1))) }

/-- The four operator buttons / keys dispatched to `handleOperator` (the
keyboard listener maps `*`, `x` to `×` and `/` to `÷`). -/
inductive Op
  | add | sub | mul | div
deriving DecidableEq

/-- Symbol string passed to `handleOperator` for each operator. -/
def opSym : Op → String
  | .add => "+"
  | .sub => "-"
  | .mul => "×"
  | .div => "÷"

/-- One discrete input event of the input surface. -/
inductive Ev
  | digit (d : Fin 10)
  | dot
  | op (o : Op)
  | eq
  | clear
  | back
  | percent
  | sign
deriving DecidableEq

/-- Dispatch of one input event to the engine. -/
def step : Ev → CalcState → CalcState
  | .digit d, s => handleDigit (Nat.digitChar d.val) s
  | .dot, s => handleDot s
  | .op o, s => handleOperator (opSym o) s
  | .eq, s => handleEqual s
  | .clear, s => handleClear s
  | .back, s => handleBackspace s
  | .percent, s => handlePercentage s
  | .sign, s => handleSignToggle s

/-- Run a list of events from a given state. -/
def runFrom (s : CalcState) (evs : List Ev) : CalcState := evs.foldl (fun a e => step e a) s

/-- Run a list of events from the initial state. -/
def run (evs : List Ev) : CalcState := runFrom initState evs

/-- A state is reachable when some event sequence from the initial state
produces it. -/
def Reachable (s : CalcState) : Prop := ∃ evs : List Ev, run evs = s

end App

namespace V0

/-- Grouping of a reversed digit list into blocks of three separated by
commas, as `Intl.NumberFormat` for `en-US` does (fuel-driven). -/
def groupAux : ℕ → List Char → List Char
  | 0, l => l
  | f + 1, l => if l.length ≤ 3 then l else l.take 3 ++ ',' :: groupAux f (l.drop 3)

/-- Insert thousands separators into a digit list, most significant first. -/
def groupDigits (l : List Char) : List Char := (groupAux l.length l.reverse).reverse

/-- The `formatOperand` helper of `src/unnamed/part_000` (lines 8-17):
`""` and `"-"` pass through; otherwise the integer portion (canonicalised
through `BigInt`) is grouped and any fraction digits are kept verbatim.
`BigInt` accepts only integer literals: on the non-numeric strings a
division by zero produces (`"Infinity"`, `"NaN"`) it throws, crashing the
caller.  This total stand-in is read only on numeric operands; the crash
itself is modelled by `stepC`. -/
def formatOperand (s : String) : String :=
  if s = "" then ""
  else if s = "-" then "-"
  else
    let p := parseSign s.data
    let intD := p.2.takeWhile (fun c => !(c == '.'))
    let rest := p.2.dropWhile (fun c => !(c == '.'))
    let n := digitsToNat intD
    let g := groupDigits (natDigits n)
    let gi := if p.1 ∧ n ≠ 0 then '-' :: g else g
    match rest with
    | '.' :: t => String.mk (gi ++ '.' :: t.takeWhile (fun c => !(c == '.')))
    | _ => String.mk gi

/-- The engine state cells of `src/unnamed/part_000` (theme and overlay
state are presentational and omitted). -/
structure V0State where
  currentOperand : String
  previousOperand : Option String
  operation : Option String
  overwrite : Bool
  history : List String
deriving DecidableEq

/-- Initial state of the component's `useState` cells. -/
def initState : V0State :=
  { currentOperand := "0", previousOperand := none, operation := none,
    overwrite := false, history := [] }

/-- The `clear` handler of `src/unnamed/part_000` (lines 39-44). -/
def clear (s : V0State) : V0State :=
  { s with currentOperand := "0", previousOperand := none, operation := none,
           overwrite := false }

/-- The `deleteDigit` handler of `src/unnamed/part_000` (lines 46-58). -/
def deleteDigit (s : V0State) : V0State :=
  if s.overwrite = true then { s with currentOperand := "0", overwrite := false }
  else if s.currentOperand = "0" then s
  else if s.currentOperand.data.length = 1 then { s with currentOperand := "0" }
  else { s with currentOperand := dropLastC s.currentOperand }

/-- The `appendNumber` handler of `src/unnamed/part_000` (lines 60-72). -/
def appendNumber (c : Char) (s : V0State) : V0State :=
  if c = '.' ∧ s.currentOperand.data.contains '.' = true then s
  else if s.overwrite = true then
    { s with currentOperand := if c = '.' then "0." else String.mk [c], overwrite := false }
  else if s.currentOperand = "0" ∧ ¬ c = '.' then { s with currentOperand := String.mk [c] }
  else { s with currentOperand := pushC s.currentOperand c }

/-- The `evaluate` helper of `src/unnamed/part_000` (lines 90-111): `NaN`
operands yield `0`, a missing (or unlisted) operation leaves the initial
`computation = 0`.  Division has no zero guard in this variant (line 107):
on a division by zero the JavaScript double gives `Infinity` (or `NaN` for
`0/0`) and the source then crashes formatting it, while this total
stand-in returns `0` there.  The crash is made explicit in the crash-aware
step `stepC`, and no theorem reads this function's value on that path. -/
def evaluateQ (prev current : String) (op : Option String) : ℚ :=
  match parseFloatQ prev, parseFloatQ current with
  | some p, some c =>
    if op = some "+" then qAdd p c
    else if op = some "-" then qSub p c
    else if op = some "*" then qMul p c
    else if op = some "/" then qDiv p c
    else 0
  | _, _ => 0

/-- The `chooseOperation` handler of `src/unnamed/part_000` (lines 74-88). -/
def chooseOperation (op : String) (s : V0State) : V0State :=
  if s.currentOperand = "" then s
  else if ¬ s.previousOperand = none then
    let result := ratToStr (evaluateQ (s.previousOperand.getD "") s.currentOperand s.operation)
    { s with previousOperand := some result, operation := some op,
             currentOperand := result, overwrite := true }
  else
    { s with operation := some op, previousOperand := some s.currentOperand,
             overwrite := true }

/-- The `parseFloat(result.toFixed(10)).toString()` value computed by the
`calculate` handler of `src/unnamed/part_000` (line 118). -/
def fmtResult (s : V0State) : String :=
  scaledCanon (fixRound (evaluateQ (s.previousOperand.getD "") s.currentOperand s.operation) 10) 10

/-- The history line logged by the `calculate` handler of
`src/unnamed/part_000` (line 121). -/
def newEntry (s : V0State) : String :=
  formatOperand (s.previousOperand.getD "") ++ " " ++ (s.operation.getD "") ++ " "
    ++ formatOperand s.currentOperand ++ " = " ++ formatOperand (fmtResult s)

/-- The `calculate` handler (the equals action) of `src/unnamed/part_000`
(lines 113-128): evaluate, round to ten decimal places, log a formatted
history line capped at ten entries, and overwrite the operand state.  On a
division by zero the source instead throws while building the history line
(line 121), before any state update; this total function is read only away
from that path, which `stepC` models as a no-op. -/
def calculate (s : V0State) : V0State :=
  if s.operation = none ∨ s.previousOperand = none then s
  else
    { s with history := (newEntry s :: s.history).take 10,
             currentOperand := fmtResult s,
             previousOperand := none, operation := none, overwrite := true }

/-- The `percentage` handler of `src/unnamed/part_000` (lines 131-135). -/
def percentage (s : V0State) : V0State :=
  match parseFloatQ s.currentOperand with
  | none => s
  | some c => { s with currentOperand := ratToStr (qDiv c (mkRat 100 1)) }

/-- Operator symbols of `src/unnamed/part_000` (plain ASCII in this
variant). -/
def opSym : App.Op → String
  | .add => "+"
  | .sub => "-"
  | .mul => "*"
  | .div => "/"

/-- One discrete input event of the part_000 input surface (this variant
has no sign toggle). -/
inductive Ev
  | digit (d : Fin 10)
  | dot
  | op (o : App.Op)
  | eq
  | clear
  | back
  | percent
deriving DecidableEq

/-- Dispatch of one input event to the part_000 engine. -/
def step : Ev → V0State → V0State
  | .digit d, s => appendNumber (Nat.digitChar d.val) s
  | .dot, s => appendNumber '.' s
  | .op o, s => chooseOperation (opSym o) s
  | .eq, s => calculate s
  | .clear, s => clear s
  | .back, s => deleteDigit s
  | .percent, s => percentage s

/-- Run a list of events from the initial part_000 state. -/
def run (evs : List Ev) : V0State := evs.foldl (fun a e => step e a) initState

end V0

namespace App

/-- Whether the equals action would succeed from `s`: the guard of
`handleEqual` passes and `calculate` does not signal the error sentinel, so
a history entry is appended. -/
def evalOk (s : CalcState) : Bool :=
  truthyS s.savedValue && truthyS s.pendingOperator && !(s.display == "Error") &&
    !(calculate s.savedValue s.display (s.pendingOperator.getD "") == "Error")

/-- History entries produced by the successful evaluations of an event
sequence, newest first (entries contributed by later events come first). -/
def entriesFrom : CalcState → List Ev → List HistoryItem
  | _, [] => []
  | s, e :: t =>
      entriesFrom (step e s) t ++ (if e = .eq ∧ evalOk s = true then [newItem s] else [])

/-- Number of successful evaluations performed by an event sequence. -/
def countOk : CalcState → List Ev → ℕ
  | _, [] => 0
  | s, e :: t => (if e = .eq ∧ evalOk s = true then 1 else 0) + countOk (step e s) t

/-- The invariant of claim C4: a pending operator is stored exactly when a
previous operand is stored. -/
def OpSavedIff (s : CalcState) : Prop :=
  s.pendingOperator.isSome = true ↔ s.savedValue.isSome = true

end App

/-- Character class of an in-progress decimal literal: a digit or the
decimal point. -/
def isDigitOrDot (c : Char) : Bool := c.isDigit || c == '.'

/-- Strip one leading minus sign from a character list. -/
def stripMinus (l : List Char) : List Char :=
  match l with
  | c :: t => if c = '-' then t else c :: t
  | [] => []

/-- Well-formed in-progress numeric text: after an optional leading minus,
only digits and decimal points occur. -/
def NumWFb (l : List Char) : Bool := (stripMinus l).all isDigitOrDot

/-- Text whose head character stops `parseFloat` immediately (it is not a
digit, a sign, or a decimal point) — the `Error` / `NaN` string family. -/
def JunkHeadb (l : List Char) : Bool :=
  match l with
  | c :: _ => !c.isDigit && !(c == '-') && !(c == '+') && !(c == '.')
  | [] => false

/-- The shape every display string of the App.tsx engine keeps: nonempty,
at most one decimal point, and either well-formed numeric text or text that
`parseFloat` rejects from its first character. -/
def DispL (l : List Char) : Prop :=
  l ≠ [] ∧ l.count '.' ≤ 1 ∧ (NumWFb l = true ∨ JunkHeadb l = true)

instance (l : List Char) : Decidable (DispL l) := by
  unfold DispL
  infer_instance

namespace App

/-- Inductive invariant of the App.tsx engine used for claims C1 and C6:
the display keeps the `DispL` shape and any stored pending operator is one
of the four symbols the input surface dispatches. -/
def InvD (s : CalcState) : Prop :=
  DispL s.display.data ∧
    ∀ p, s.pendingOperator = some p → p = "+" ∨ p = "-" ∨ p = "×" ∨ p = "÷"

end App

namespace V0

/-- Whether the pending evaluation of `s` divides by zero — within this
model's exclusion of double-precision overflow, the one way the `evaluate`
helper of `src/unnamed/part_000` (line 107, no zero guard) produces a
non-finite double (`Infinity`, or `NaN` for `0/0`).  Both operands must
parse, since `NaN` operands are caught by the `isNaN` guard (line 93)
before the division happens. -/
def divZero (s : V0State) : Bool :=
  s.operation == some "/" &&
    match parseFloatQ (s.previousOperand.getD ""), parseFloatQ s.currentOperand with
    | some _, some c => c == 0
    | _, _ => false

/-- One input event of the part_000 engine with the source's crash
behaviour on division by zero made explicit (`none` means the session is
over).  An equals press whose evaluation divides by zero throws inside
`calculate` while the history line is built — `formatOperand` (line 121)
calls `BigInt` on `"Infinity"`/`"NaN"` — before any state setter runs, so
the handler aborts with the state unchanged and the component stays
mounted.  The same division inside `chooseOperation`'s chaining branch
(line 78) instead stores `result.toString()` into the operands without any
formatting (lines 79-81), and the next render then crashes on
`formatOperand(currentOperand)` (line 240), unmounting the component: no
further events are possible. -/
def stepC : Ev → V0State → Option V0State
  | .eq, s => if divZero s = true then some s else some (calculate s)
  | .op o, s =>
      if divZero s = true ∧ ¬ s.currentOperand = "" then none
      else some (chooseOperation (opSym o) s)
  | e, s => some (step e s)

/-- Run a list of events through the crash-aware step; `none` once the
session has crashed. -/
def runCFrom : V0State → List Ev → Option V0State
  | s, [] => some s
  | s, e :: t =>
      match stepC e s with
      | none => none
      | some s2 => runCFrom s2 t

/-- Crash-aware run from the initial part_000 state. -/
def runC (evs : List Ev) : Option V0State := runCFrom initState evs

/-- Whether the equals action completes from `s`: the guard of `calculate`
(line 114) passes and the evaluation does not divide by zero, so the entry
formatting does not throw and a history line is pushed. -/
def evalOkC (s : V0State) : Bool :=
  !(s.operation == none) && !(s.previousOperand == none) && !(divZero s)

/-- History lines produced by the completed evaluations of an event
sequence under the crash-aware step, newest first (entries contributed by
later events come first); a crash ends the session and the list. -/
def entriesCFrom : V0State → List Ev → List String
  | _, [] => []
  | s, e :: t =>
      match stepC e s with
      | none => []
      | some s2 =>
          entriesCFrom s2 t ++ (if e = Ev.eq ∧ evalOkC s = true then [newEntry s] else [])

/-- Number of completed evaluations performed by an event sequence under
the crash-aware step. -/
def countCFrom : V0State → List Ev → ℕ
  | _, [] => 0
  | s, e :: t =>
      match stepC e s with
      | none => 0
      | some s2 => (if e = Ev.eq ∧ evalOkC s = true then 1 else 0) + countCFrom s2 t

end V0

/-! ## Theorems -/

theorem handleEqual_of_not_truthy (t : App.CalcState)
    (h : App.truthyS t.savedValue = false) : App.handleEqual t = t := by
  unfold App.handleEqual
  rw [if_neg]
  intro hc
  rw [hc.1] at h
  cases h

theorem v0_calculate_of_op_none (t : V0.V0State) (h : t.operation = none) :
    V0.calculate t = t := by
  unfold V0.calculate
  rw [if_pos (Or.inl h)]

/-- C9: evaluating twice in a row equals evaluating once, in both engine
variants: a successful first evaluation clears the pending operator and the
previous operand, so the second call hits the guard and is a no-op; a
failed first evaluation leaves the state unchanged, so the second call
repeats it verbatim. -/
theorem claim9_evaluate_idempotent :
    (∀ s : App.CalcState, App.handleEqual (App.handleEqual s) = App.handleEqual s) ∧
    (∀ t : V0.V0State, V0.calculate (V0.calculate t) = V0.calculate t) := by
  constructor
  · intro s
    by_cases h : (App.truthyS s.savedValue = true ∧ App.truthyS s.pendingOperator = true ∧
        ¬ s.display = "Error")
    · have hsv : (App.handleEqual s).savedValue = none := by
        unfold App.handleEqual
        rw [if_pos h]
      exact handleEqual_of_not_truthy _ (by rw [hsv]; rfl)
    · have he : App.handleEqual s = s := by
        unfold App.handleEqual
        rw [if_neg h]
      rw [he]
      exact he
  · intro t
    by_cases h : (t.operation = none ∨ t.previousOperand = none)
    · have he : V0.calculate t = t := by
        unfold V0.calculate
        rw [if_pos h]
      rw [he]
      exact he
    · have hop : (V0.calculate t).operation = none := by
        unfold V0.calculate
        rw [if_neg h]
      exact v0_calculate_of_op_none _ hop

/-- C2: from the initial state, `2 + 2 + 2 =` leaves the current operand at
`"6"` in both engine variants — the second operator press folds the pending
`2 + 2` first, giving left-to-right chaining. -/
theorem claim2_chaining :
    (App.run [.digit 2, .op .add, .digit 2, .op .add, .digit 2, .eq]).display = "6" ∧
    (V0.run [.digit 2, .op .add, .digit 2, .op .add, .digit 2, .eq]).currentOperand = "6" := by
  constructor
  · decide
  · decide

/-- C7: from the initial state, `0 . 1 + 0 . 2 =` displays `"0.3"` in both
engine variants: the exact sum is rounded to a fixed number of decimal
places (8 in App.tsx, 10 in part_000) and printed canonically, so no
floating-point artifact such as `0.30000000000000004` survives to the
display. -/
theorem claim7_rounding :
    (App.run [.digit 0, .dot, .digit 1, .op .add, .digit 0, .dot, .digit 2, .eq]).display
        = "0.3" ∧
    (V0.run [.digit 0, .dot, .digit 1, .op .add, .digit 0, .dot, .digit 2, .eq]).currentOperand
        = "0.3" := by
  constructor
  · decide
  · decide

/-- C8: clear-all resets the current operand to `"0"` and clears the
previous operand, the pending operator, the overwrite flag and (in App.tsx)
the error sentinel, while the history list is passed through untouched, in
both engine variants. -/
theorem claim8_clear_frame :
    (∀ s : App.CalcState, App.handleClear s =
      { display := "0", expression := "", history := s.history,
        waitingForOperand := false, pendingOperator := none, savedValue := none }) ∧
    (∀ t : V0.V0State, V0.clear t =
      { currentOperand := "0", previousOperand := none, operation := none,
        overwrite := false, history := t.history }) := by
  exact ⟨fun s => rfl, fun t => rfl⟩

/-- C5 (counterexample): in the part_000 engine — one of the two
implementations the claim covers — backspace in a fresh overwrite state is
not a no-op.  After `5 + 3 =` the overwrite flag is set and the display
shows `"8"`; `deleteDigit` then resets the display to `"0"`. -/
theorem claim5_counterexample :
    (V0.run [.digit 5, .op .add, .digit 3, .eq]).overwrite = true ∧
    (V0.run [.digit 5, .op .add, .digit 3, .eq]).currentOperand = "8" ∧
    (V0.deleteDigit (V0.run [.digit 5, .op .add, .digit 3, .eq])).currentOperand = "0" ∧
    ¬ V0.deleteDigit (V0.run [.digit 5, .op .add, .digit 3, .eq])
        = V0.run [.digit 5, .op .add, .digit 3, .eq] := by
  refine ⟨by decide, by decide, by decide, by decide⟩

/-- C5 (amended): with the overwrite flag set, backspace is a complete
no-op in the App.tsx engine; in the part_000 engine it instead resets the
current operand to `"0"` and clears the flag (so the display changes
whenever it showed anything other than `"0"`). -/
theorem claim5_amended :
    (∀ s : App.CalcState, s.waitingForOperand = true → App.handleBackspace s = s) ∧
    (∀ t : V0.V0State, t.overwrite = true →
      V0.deleteDigit t = { t with currentOperand := "0", overwrite := false }) := by
  constructor
  · intro s h
    unfold App.handleBackspace
    rw [if_pos (Or.inl h)]
  · intro t h
    unfold V0.deleteDigit
    rw [if_pos h]

/-- Witness for C5 (amended) at concrete states: after `2 +` the App.tsx
engine is waiting for an operand and backspace leaves the state unchanged;
after `5 +` the part_000 engine is in overwrite state and backspace resets
the operand. -/
theorem claim5_amended_witness :
    App.handleBackspace (App.run [.digit 2, .op .add]) = App.run [.digit 2, .op .add] ∧
    V0.deleteDigit (V0.run [.digit 5, .op .add])
      = { V0.run [.digit 5, .op .add] with currentOperand := "0", overwrite := false } :=
  ⟨claim5_amended.1 (App.run [.digit 2, .op .add]) (by decide),
   claim5_amended.2 (V0.run [.digit 5, .op .add]) (by decide)⟩

/-- C10: whenever the equals action computes the error sentinel (division
by zero), no history entry is appended — the history list is passed through
identically — even though the display becomes `"Error"` and the previous
operand and pending operator are cleared. -/
theorem claim10_error_no_history :
    ∀ s : App.CalcState,
      App.truthyS s.savedValue = true →
      App.truthyS s.pendingOperator = true →
      ¬ s.display = "Error" →
      App.calculate s.savedValue s.display (s.pendingOperator.getD "") = "Error" →
      (App.handleEqual s).history = s.history ∧
      (App.handleEqual s).display = "Error" ∧
      (App.handleEqual s).savedValue = none ∧
      (App.handleEqual s).pendingOperator = none := by
  intro s h1 h2 h3 h4
  unfold App.handleEqual
  rw [if_pos ⟨h1, h2, h3⟩]
  simp [h4]

/-- Witness for C10 at the concrete state reached by `5 ÷ 0`: the failing
evaluation leaves the (empty) history untouched and raises the sentinel. -/
theorem claim10_witness :
    (App.handleEqual (App.run [.digit 5, .op .div, .digit 0])).history
        = (App.run [.digit 5, .op .div, .digit 0]).history ∧
    (App.handleEqual (App.run [.digit 5, .op .div, .digit 0])).display = "Error" ∧
    (App.handleEqual (App.run [.digit 5, .op .div, .digit 0])).savedValue = none ∧
    (App.handleEqual (App.run [.digit 5, .op .div, .digit 0])).pendingOperator = none :=
  claim10_error_no_history (App.run [.digit 5, .op .div, .digit 0])
    (by decide) (by decide) (by decide) (by decide)

theorem runFrom_nil (s : App.CalcState) : App.runFrom s [] = s := rfl

theorem runFrom_cons (s : App.CalcState) (e : App.Ev) (t : List App.Ev) :
    App.runFrom s (e :: t) = App.runFrom (App.step e s) t := rfl

theorem invariant_runFrom {P : App.CalcState → Prop}
    (hstep : ∀ e s, P s → P (App.step e s)) :
    ∀ evs s, P s → P (App.runFrom s evs) := by
  intro evs
  induction evs with
  | nil => intro s h; exact h
  | cons e t ih =>
      intro s h
      rw [runFrom_cons]
      exact ih _ (hstep e s h)

theorem step_digit (d : Fin 10) (s : App.CalcState) :
    App.step (.digit d) s = App.handleDigit (Nat.digitChar d.val) s := rfl

theorem step_dot (s : App.CalcState) : App.step .dot s = App.handleDot s := rfl

theorem step_op (o : App.Op) (s : App.CalcState) :
    App.step (.op o) s = App.handleOperator (App.opSym o) s := rfl

theorem step_eq (s : App.CalcState) : App.step .eq s = App.handleEqual s := rfl

theorem step_clear (s : App.CalcState) : App.step .clear s = App.handleClear s := rfl

theorem step_back (s : App.CalcState) : App.step .back s = App.handleBackspace s := rfl

theorem step_percent (s : App.CalcState) : App.step .percent s = App.handlePercentage s := rfl

theorem step_sign (s : App.CalcState) : App.step .sign s = App.handleSignToggle s := rfl

theorem opSavedIff_step : ∀ (e : App.Ev) (s : App.CalcState),
    App.OpSavedIff s → App.OpSavedIff (App.step e s) := by
  intro e s h
  cases e with
  | digit d =>
      rw [step_digit]
      unfold App.handleDigit
      split_ifs <;> exact h
  | dot =>
      rw [step_dot]
      unfold App.handleDot
      split_ifs <;> exact h
  | op o =>
      rw [step_op]
      unfold App.handleOperator App.OpSavedIff
      split_ifs <;> simp_all [App.OpSavedIff]
      split_ifs <;> simp
  | eq =>
      rw [step_eq]
      unfold App.handleEqual App.OpSavedIff
      split_ifs <;> simp_all [App.OpSavedIff]
  | clear =>
      rw [step_clear]
      unfold App.handleClear App.OpSavedIff
      simp
  | back =>
      rw [step_back]
      unfold App.handleBackspace
      split_ifs <;> exact h
  | percent =>
      rw [step_percent]
      unfold App.handlePercentage
      split_ifs <;> exact h
  | sign =>
      rw [step_sign]
      unfold App.handleSignToggle
      split_ifs <;> exact h

/-- C4: in every reachable state of the App.tsx engine a pending operator
is stored exactly when a previous operand is stored, and every one of the
eight input operations preserves this equivalence from any state that has
it. -/
theorem claim4_pending_iff_saved :
    (∀ s : App.CalcState, App.Reachable s → App.OpSavedIff s) ∧
    (∀ (s : App.CalcState) (e : App.Ev), App.OpSavedIff s → App.OpSavedIff (App.step e s)) := by
  constructor
  · rintro s ⟨evs, rfl⟩
    exact invariant_runFrom opSavedIff_step evs App.initState (by simp [App.initState, App.OpSavedIff])
  · intro s e h
    exact opSavedIff_step e s h

/-- Witness for C4 at the concrete reachable state after `2 +`: both the
pending operator and the saved operand are present. -/
theorem claim4_witness :
    App.OpSavedIff (App.run [.digit 2, .op .add]) :=
  claim4_pending_iff_saved.1 (App.run [.digit 2, .op .add]) ⟨[.digit 2, .op .add], rfl⟩

theorem take_append_take (A B : List α) (n : ℕ) :
    (A ++ B.take n).take n = (A ++ B).take n := by
  rw [List.take_append_eq_append_take, List.take_append_eq_append_take, List.take_take]
  have h : min (n - A.length) n = n - A.length := Nat.min_eq_left (Nat.sub_le n A.length)
  rw [h]

theorem evalOk_elim (s : App.CalcState) (h : App.evalOk s = true) :
    (App.truthyS s.savedValue = true ∧ App.truthyS s.pendingOperator = true ∧
      ¬ s.display = "Error") ∧
    ¬ App.calculate s.savedValue s.display (s.pendingOperator.getD "") = "Error" := by
  unfold App.evalOk at h
  simp only [Bool.and_eq_true, Bool.not_eq_eq_eq_not, Bool.not_true, beq_eq_false_iff_ne,
    ne_eq] at h
  exact ⟨⟨h.1.1.1, h.1.1.2, h.1.2⟩, h.2⟩

theorem history_step_eq_of_ok (s : App.CalcState) (h : App.evalOk s = true) :
    (App.handleEqual s).history = (App.newItem s :: s.history).take 50 := by
  obtain ⟨hg, hr⟩ := evalOk_elim s h
  unfold App.handleEqual
  rw [if_pos hg]
  simp [hr]

theorem history_step_preserve (e : App.Ev) (s : App.CalcState)
    (h : ¬ (e = App.Ev.eq ∧ App.evalOk s = true)) :
    (App.step e s).history = s.history := by
  cases e with
  | digit d =>
      rw [step_digit]; unfold App.handleDigit; split_ifs <;> rfl
  | dot =>
      rw [step_dot]; unfold App.handleDot; split_ifs <;> rfl
  | op o =>
      rw [step_op]; unfold App.handleOperator; dsimp only; split_ifs <;> rfl
  | clear => rfl
  | back =>
      rw [step_back]; unfold App.handleBackspace; split_ifs <;> rfl
  | percent =>
      rw [step_percent]; unfold App.handlePercentage; split_ifs <;> rfl
  | sign =>
      rw [step_sign]; unfold App.handleSignToggle; split_ifs <;> rfl
  | eq =>
      rw [step_eq]
      have hok : ¬ App.evalOk s = true := fun hc => h ⟨rfl, hc⟩
      unfold App.handleEqual
      split_ifs with hg
      · have hr : App.calculate s.savedValue s.display (s.pendingOperator.getD "") = "Error" := by
          by_contra hr
          apply hok
          unfold App.evalOk
          simp only [Bool.and_eq_true, Bool.not_eq_eq_eq_not, Bool.not_true,
            beq_eq_false_iff_ne, ne_eq]
          exact ⟨⟨⟨hg.1, hg.2.1⟩, hg.2.2⟩, hr⟩
        simp [hr]
      · rfl

theorem entriesFrom_nil (s : App.CalcState) : App.entriesFrom s [] = [] := rfl

theorem entriesFrom_cons (s : App.CalcState) (e : App.Ev) (t : List App.Ev) :
    App.entriesFrom s (e :: t) = App.entriesFrom (App.step e s) t ++
      (if e = App.Ev.eq ∧ App.evalOk s = true then [App.newItem s] else []) := rfl

theorem countOk_nil (s : App.CalcState) : App.countOk s [] = 0 := rfl

theorem countOk_cons (s : App.CalcState) (e : App.Ev) (t : List App.Ev) :
    App.countOk s (e :: t) = (if e = App.Ev.eq ∧ App.evalOk s = true then 1 else 0) +
      App.countOk (App.step e s) t := rfl

theorem histSpec : ∀ (evs : List App.Ev) (s : App.CalcState), s.history.length ≤ 50 →
    (App.runFrom s evs).history = (App.entriesFrom s evs ++ s.history).take 50 := by
  intro evs
  induction evs with
  | nil =>
      intro s h
      rw [runFrom_nil, entriesFrom_nil, List.nil_append, List.take_of_length_le h]
  | cons e t ih =>
      intro s h
      rw [runFrom_cons]
      by_cases he : (e = App.Ev.eq ∧ App.evalOk s = true)
      · have hstep : (App.step e s).history = (App.newItem s :: s.history).take 50 := by
          rw [he.1, step_eq]
          exact history_step_eq_of_ok s he.2
        have hlen : (App.step e s).history.length ≤ 50 := by
          rw [hstep, List.length_take]
          exact Nat.min_le_left _ _
        rw [ih _ hlen, hstep, entriesFrom_cons, if_pos he, take_append_take,
          List.append_assoc, List.singleton_append]
      · have hstep : (App.step e s).history = s.history := history_step_preserve e s he
        rw [ih _ (by rw [hstep]; exact h), hstep, entriesFrom_cons, if_neg he,
          List.append_nil]

theorem entriesFrom_length : ∀ (evs : List App.Ev) (s : App.CalcState),
    (App.entriesFrom s evs).length = App.countOk s evs := by
  intro evs
  induction evs with
  | nil => intro s; rfl
  | cons e t ih =>
      intro s
      rw [entriesFrom_cons, countOk_cons, List.length_append, ih]
      by_cases he : (e = App.Ev.eq ∧ App.evalOk s = true)
      · rw [if_pos he, if_pos he]
        simp [Nat.add_comm]
      · rw [if_neg he, if_neg he]
        simp

theorem v0_step_digit (d : Fin 10) (s : V0.V0State) :
    V0.step (.digit d) s = V0.appendNumber (Nat.digitChar d.val) s := rfl

theorem v0_step_dot (s : V0.V0State) : V0.step .dot s = V0.appendNumber '.' s := rfl

theorem v0_step_clear (s : V0.V0State) : V0.step .clear s = V0.clear s := rfl

theorem v0_step_back (s : V0.V0State) : V0.step .back s = V0.deleteDigit s := rfl

theorem v0_step_percent (s : V0.V0State) : V0.step .percent s = V0.percentage s := rfl

theorem v0_stepC_eq (s : V0.V0State) :
    V0.stepC .eq s = if V0.divZero s = true then some s else some (V0.calculate s) := rfl

theorem v0_stepC_op (o : App.Op) (s : V0.V0State) :
    V0.stepC (.op o) s =
      if V0.divZero s = true ∧ ¬ s.currentOperand = "" then none
      else some (V0.chooseOperation (V0.opSym o) s) := rfl

theorem v0_stepC_digit (d : Fin 10) (s : V0.V0State) :
    V0.stepC (.digit d) s = some (V0.step (.digit d) s) := rfl

theorem v0_stepC_dot (s : V0.V0State) : V0.stepC .dot s = some (V0.step .dot s) := rfl

theorem v0_stepC_clear (s : V0.V0State) : V0.stepC .clear s = some (V0.step .clear s) := rfl

theorem v0_stepC_back (s : V0.V0State) : V0.stepC .back s = some (V0.step .back s) := rfl

theorem v0_stepC_percent (s : V0.V0State) :
    V0.stepC .percent s = some (V0.step .percent s) := rfl

theorem v0_runCFrom_nil (s : V0.V0State) : V0.runCFrom s [] = some s := rfl

theorem v0_runCFrom_cons (s : V0.V0State) (e : V0.Ev) (t : List V0.Ev) :
    V0.runCFrom s (e :: t) =
      match V0.stepC e s with
      | none => none
      | some s2 => V0.runCFrom s2 t := rfl

theorem v0_runCFrom_cons_none {e : V0.Ev} {s : V0.V0State} (t : List V0.Ev)
    (h : V0.stepC e s = none) : V0.runCFrom s (e :: t) = none := by
  rw [v0_runCFrom_cons, h]

theorem v0_runCFrom_cons_some {e : V0.Ev} {s s2 : V0.V0State} (t : List V0.Ev)
    (h : V0.stepC e s = some s2) : V0.runCFrom s (e :: t) = V0.runCFrom s2 t := by
  rw [v0_runCFrom_cons, h]

theorem v0_entriesCFrom_nil (s : V0.V0State) : V0.entriesCFrom s [] = [] := rfl

theorem v0_entriesCFrom_cons (s : V0.V0State) (e : V0.Ev) (t : List V0.Ev) :
    V0.entriesCFrom s (e :: t) =
      match V0.stepC e s with
      | none => []
      | some s2 =>
          V0.entriesCFrom s2 t ++
            (if e = V0.Ev.eq ∧ V0.evalOkC s = true then [V0.newEntry s] else []) := rfl

theorem v0_entriesCFrom_cons_none {e : V0.Ev} {s : V0.V0State} (t : List V0.Ev)
    (h : V0.stepC e s = none) : V0.entriesCFrom s (e :: t) = [] := by
  rw [v0_entriesCFrom_cons, h]

theorem v0_entriesCFrom_cons_some {e : V0.Ev} {s s2 : V0.V0State} (t : List V0.Ev)
    (h : V0.stepC e s = some s2) :
    V0.entriesCFrom s (e :: t) = V0.entriesCFrom s2 t ++
      (if e = V0.Ev.eq ∧ V0.evalOkC s = true then [V0.newEntry s] else []) := by
  rw [v0_entriesCFrom_cons, h]

theorem v0_countCFrom_nil (s : V0.V0State) : V0.countCFrom s [] = 0 := rfl

theorem v0_countCFrom_cons (s : V0.V0State) (e : V0.Ev) (t : List V0.Ev) :
    V0.countCFrom s (e :: t) =
      match V0.stepC e s with
      | none => 0
      | some s2 =>
          (if e = V0.Ev.eq ∧ V0.evalOkC s = true then 1 else 0) + V0.countCFrom s2 t := rfl

theorem v0_countCFrom_cons_none {e : V0.Ev} {s : V0.V0State} (t : List V0.Ev)
    (h : V0.stepC e s = none) : V0.countCFrom s (e :: t) = 0 := by
  rw [v0_countCFrom_cons, h]

theorem v0_countCFrom_cons_some {e : V0.Ev} {s s2 : V0.V0State} (t : List V0.Ev)
    (h : V0.stepC e s = some s2) :
    V0.countCFrom s (e :: t) =
      (if e = V0.Ev.eq ∧ V0.evalOkC s = true then 1 else 0) + V0.countCFrom s2 t := by
  rw [v0_countCFrom_cons, h]

theorem v0_evalOkC_elim (s : V0.V0State) (h : V0.evalOkC s = true) :
    (¬ s.operation = none ∧ ¬ s.previousOperand = none) ∧ V0.divZero s = false := by
  unfold V0.evalOkC at h
  simp only [Bool.and_eq_true, Bool.not_eq_true', beq_eq_false_iff_ne, ne_eq] at h
  exact ⟨⟨h.1.1, h.1.2⟩, h.2⟩

theorem v0_evalOkC_intro (s : V0.V0State) (h1 : ¬ s.operation = none)
    (h2 : ¬ s.previousOperand = none) (h3 : V0.divZero s = false) :
    V0.evalOkC s = true := by
  unfold V0.evalOkC
  simp only [Bool.and_eq_true, Bool.not_eq_true', beq_eq_false_iff_ne, ne_eq]
  exact ⟨⟨h1, h2⟩, h3⟩

theorem v0_history_eq_of_ok (s : V0.V0State) (h : V0.evalOkC s = true) :
    (V0.calculate s).history = (V0.newEntry s :: s.history).take 10 := by
  obtain ⟨⟨h1, h2⟩, _⟩ := v0_evalOkC_elim s h
  unfold V0.calculate
  rw [if_neg (fun hc => hc.elim h1 h2)]

theorem v0_stepC_eq_of_ok (s : V0.V0State) (h : V0.evalOkC s = true) :
    V0.stepC .eq s = some (V0.calculate s) := by
  have h3 := (v0_evalOkC_elim s h).2
  rw [v0_stepC_eq, if_neg (by rw [h3]; decide)]

theorem v0_history_step_preserve (e : V0.Ev) (s s2 : V0.V0State)
    (hst : V0.stepC e s = some s2) (hne : ¬ (e = V0.Ev.eq ∧ V0.evalOkC s = true)) :
    s2.history = s.history := by
  cases e with
  | digit d =>
      rw [v0_stepC_digit, v0_step_digit] at hst
      rw [← Option.some.inj hst]
      unfold V0.appendNumber
      split_ifs <;> rfl
  | dot =>
      rw [v0_stepC_dot, v0_step_dot] at hst
      rw [← Option.some.inj hst]
      unfold V0.appendNumber
      split_ifs <;> rfl
  | op o =>
      rw [v0_stepC_op] at hst
      by_cases hc : V0.divZero s = true ∧ ¬ s.currentOperand = ""
      · rw [if_pos hc] at hst
        simp at hst
      · rw [if_neg hc] at hst
        rw [← Option.some.inj hst]
        unfold V0.chooseOperation
        dsimp only
        split_ifs <;> rfl
  | eq =>
      rw [v0_stepC_eq] at hst
      split_ifs at hst with hdz
      · rw [← Option.some.inj hst]
      · rw [← Option.some.inj hst]
        have hok : ¬ V0.evalOkC s = true := fun hc => hne ⟨rfl, hc⟩
        have hdz2 : V0.divZero s = false := by
          cases hb : V0.divZero s
          · rfl
          · exact absurd hb hdz
        have hguard : s.operation = none ∨ s.previousOperand = none := by
          by_contra hg
          push_neg at hg
          exact hok (v0_evalOkC_intro s hg.1 hg.2 hdz2)
        unfold V0.calculate
        rw [if_pos hguard]
  | clear =>
      rw [v0_stepC_clear, v0_step_clear] at hst
      rw [← Option.some.inj hst]
      rfl
  | back =>
      rw [v0_stepC_back, v0_step_back] at hst
      rw [← Option.some.inj hst]
      unfold V0.deleteDigit
      split_ifs <;> rfl
  | percent =>
      rw [v0_stepC_percent, v0_step_percent] at hst
      rw [← Option.some.inj hst]
      unfold V0.percentage
      cases hp : parseFloatQ s.currentOperand <;> rfl

theorem v0_histSpec : ∀ (evs : List V0.Ev) (s s2 : V0.V0State), s.history.length ≤ 10 →
    V0.runCFrom s evs = some s2 →
    s2.history = (V0.entriesCFrom s evs ++ s.history).take 10 := by
  intro evs
  induction evs with
  | nil =>
      intro s s2 hlen hrun
      rw [v0_runCFrom_nil] at hrun
      rw [← Option.some.inj hrun, v0_entriesCFrom_nil, List.nil_append,
        List.take_of_length_le hlen]
  | cons e t ih =>
      intro s s2 hlen hrun
      cases hst : V0.stepC e s with
      | none =>
          rw [v0_runCFrom_cons_none t hst] at hrun
          simp at hrun
      | some s1 =>
          rw [v0_runCFrom_cons_some t hst] at hrun
          by_cases he : (e = V0.Ev.eq ∧ V0.evalOkC s = true)
          · have hs1 : s1 = V0.calculate s := by
              rw [he.1] at hst
              rw [v0_stepC_eq_of_ok s he.2] at hst
              exact (Option.some.inj hst).symm
            have hhist : s1.history = (V0.newEntry s :: s.history).take 10 := by
              rw [hs1]
              exact v0_history_eq_of_ok s he.2
            have hlen1 : s1.history.length ≤ 10 := by
              rw [hhist, List.length_take]
              exact Nat.min_le_left _ _
            rw [ih s1 s2 hlen1 hrun, hhist, v0_entriesCFrom_cons_some t hst, if_pos he,
              take_append_take, List.append_assoc, List.singleton_append]
          · have hhist : s1.history = s.history := v0_history_step_preserve e s s1 hst he
            rw [ih s1 s2 (by rw [hhist]; exact hlen) hrun, hhist,
              v0_entriesCFrom_cons_some t hst, if_neg he, List.append_nil]

theorem v0_entriesCFrom_length : ∀ (evs : List V0.Ev) (s : V0.V0State),
    (V0.entriesCFrom s evs).length = V0.countCFrom s evs := by
  intro evs
  induction evs with
  | nil => intro s; rfl
  | cons e t ih =>
      intro s
      cases hst : V0.stepC e s with
      | none =>
          rw [v0_entriesCFrom_cons_none t hst, v0_countCFrom_cons_none t hst]
          rfl
      | some s1 =>
          rw [v0_entriesCFrom_cons_some t hst, v0_countCFrom_cons_some t hst,
            List.length_append, ih]
          by_cases he : (e = V0.Ev.eq ∧ V0.evalOkC s = true)
          · rw [if_pos he, if_pos he]
            simp [Nat.add_comm]
          · rw [if_neg he, if_neg he]
            simp

/-- C3: the App.tsx history is exactly the newest-first list of all
successful evaluations' entries truncated at the cap of 50 — so its length
is `min (number of successful evaluations) 50`: it never exceeds the cap,
it equals the cap once more than 50 evaluations succeeded, and each
successful evaluation pushes its entry at the head while everything beyond
position 50 (the oldest entries) is dropped.  The part_000 engine, run
through its crash-aware step (`V0.stepC`, which makes the source's
division-by-zero crash — where no entry is pushed — explicit), satisfies
the same characterisation at its cap of 10 in every session that has not
crashed. -/
theorem claim3_history_cap :
    (∀ evs : List App.Ev,
      (App.run evs).history = (App.entriesFrom App.initState evs).take 50) ∧
    (∀ evs : List App.Ev,
      (App.run evs).history.length = min (App.countOk App.initState evs) 50) ∧
    (∀ s : App.CalcState, App.evalOk s = true →
      (App.handleEqual s).history = App.newItem s :: s.history.take 49) ∧
    (∀ (evs : List V0.Ev) (t : V0.V0State), V0.runC evs = some t →
      t.history = (V0.entriesCFrom V0.initState evs).take 10 ∧
      t.history.length = min (V0.countCFrom V0.initState evs) 10) := by
  refine ⟨fun evs => ?_, fun evs => ?_, fun s h => ?_, fun evs t h => ?_⟩
  · have h0 : App.initState.history.length ≤ 50 := by decide
    have hs := histSpec evs App.initState h0
    unfold App.run
    rw [hs, show App.initState.history = [] from rfl, List.append_nil]
  · have h0 : App.initState.history.length ≤ 50 := by decide
    have hs := histSpec evs App.initState h0
    unfold App.run
    rw [hs]
    have hn : (App.entriesFrom App.initState evs ++ App.initState.history)
        = App.entriesFrom App.initState evs := List.append_nil _
    rw [hn, List.length_take, entriesFrom_length, Nat.min_comm]
  · rw [history_step_eq_of_ok s h, List.take_succ_cons]
  · unfold V0.runC at h
    have h0 : V0.initState.history.length ≤ 10 := by decide
    have hs := v0_histSpec evs V0.initState t h0 h
    rw [show V0.initState.history = [] from rfl, List.append_nil] at hs
    refine ⟨hs, ?_⟩
    rw [hs, List.length_take, v0_entriesCFrom_length, Nat.min_comm]

/-- Witness for C3 at concrete inputs: after `1 + 2 =` the App.tsx state
evaluates successfully with its entry at the head, and the part_000
crash-aware run of the same keystrokes completes with the matching
one-entry history of length `min 1 10`. -/
theorem claim3_witness :
    (App.handleEqual (App.run [.digit 1, .op .add, .digit 2])).history
        = App.newItem (App.run [.digit 1, .op .add, .digit 2])
            :: (App.run [.digit 1, .op .add, .digit 2]).history.take 49 ∧
    ((V0.run [.digit 1, .op .add, .digit 2, .eq]).history
        = (V0.entriesCFrom V0.initState [.digit 1, .op .add, .digit 2, .eq]).take 10 ∧
      (V0.run [.digit 1, .op .add, .digit 2, .eq]).history.length
        = min (V0.countCFrom V0.initState [.digit 1, .op .add, .digit 2, .eq]) 10) :=
  ⟨claim3_history_cap.2.2.1 (App.run [.digit 1, .op .add, .digit 2]) (by decide),
   claim3_history_cap.2.2.2 [.digit 1, .op .add, .digit 2, .eq]
     (V0.run [.digit 1, .op .add, .digit 2, .eq]) (by decide)⟩

theorem natDigitsAux_digit : ∀ (f n : ℕ) (c : Char), c ∈ natDigitsAux f n → c.isDigit = true := by
  intro f
  induction f with
  | zero => intro n c hc; cases hc
  | succ f ih =>
      intro n c hc
      unfold natDigitsAux at hc
      by_cases h : n < 10
      · rw [if_pos h] at hc
        have : c = Nat.digitChar n := by
          cases hc with
          | head => rfl
          | tail _ hm => cases hm
        subst this
        interval_cases n <;> decide
      · rw [if_neg h] at hc
        rcases List.mem_append.mp hc with hm | hm
        · exact ih _ c hm
        · have : c = Nat.digitChar (n % 10) := by
            cases hm with
            | head => rfl
            | tail _ hm2 => cases hm2
          subst this
          have h10 : n % 10 < 10 := Nat.mod_lt _ (by omega)
          interval_cases hh : (n % 10) <;> decide

theorem natDigits_digit (n : ℕ) (c : Char) (hc : c ∈ natDigits n) : c.isDigit = true :=
  natDigitsAux_digit _ n c hc

theorem natDigits_ne_nil (n : ℕ) : natDigits n ≠ [] := by
  unfold natDigits natDigitsAux
  by_cases h : n < 10
  · rw [if_pos h]; simp
  · rw [if_neg h]; simp

theorem trimZeros_mem (l : List Char) (c : Char) (hc : c ∈ trimZeros l) : c ∈ l := by
  unfold trimZeros at hc
  rw [List.mem_reverse] at hc
  have := (List.dropWhile_sublist (l := l.reverse) (p := (· == '0'))).mem hc
  rw [List.mem_reverse] at this
  exact this

theorem digit_ne_dot {c : Char} (h : c.isDigit = true) : ¬ c = '.' := by
  intro he
  subst he
  exact absurd h (by decide)

theorem digit_ne_minus {c : Char} (h : c.isDigit = true) : ¬ c = '-' := by
  intro he
  subst he
  exact absurd h (by decide)

theorem digit_ne_plus {c : Char} (h : c.isDigit = true) : ¬ c = '+' := by
  intro he
  subst he
  exact absurd h (by decide)

theorem count_dot_zero {l : List Char} (h : ∀ c ∈ l, c.isDigit = true) : l.count '.' = 0 := by
  rw [List.count_eq_zero]
  intro hm
  exact digit_ne_dot (h '.' hm) rfl

theorem all_isDigitOrDot_of_digits {l : List Char} (h : ∀ c ∈ l, c.isDigit = true) :
    l.all isDigitOrDot = true := by
  rw [List.all_eq_true]
  intro c hc
  unfold isDigitOrDot
  rw [h c hc]
  rfl

theorem stripMinus_of_head_ne {c : Char} {t : List Char} (h : ¬ c = '-') :
    stripMinus (c :: t) = c :: t := by
  show (if c = '-' then t else c :: t) = c :: t
  rw [if_neg h]

theorem stripMinus_minus (t : List Char) : stripMinus ('-' :: t) = t := by
  show (if '-' = '-' then t else '-' :: t) = t
  rw [if_pos rfl]

theorem dispL_of_digit_head (body : List Char) (c : Char) (t : List Char)
    (hcons : body = c :: t) (hc : c.isDigit = true)
    (hall : body.all isDigitOrDot = true) (hcount : body.count '.' ≤ 1) :
    DispL body ∧ DispL ('-' :: body) := by
  constructor
  · refine ⟨by rw [hcons]; simp, hcount, Or.inl ?_⟩
    unfold NumWFb
    rw [hcons, stripMinus_of_head_ne (digit_ne_minus hc), ← hcons]
    exact hall
  · refine ⟨by simp, ?_, Or.inl ?_⟩
    · rw [List.count_cons]
      have hne : (('-' : Char) == '.') = false := by decide
      rw [hne]
      simpa using hcount
    · unfold NumWFb
      rw [stripMinus_minus]
      exact hall

theorem canonFrac_digit (a e : ℕ) : ∀ c ∈ canonFrac a e, c.isDigit = true := by
  intro c hc
  have hm := trimZeros_mem _ c hc
  rcases List.mem_append.mp hm with hr | hd
  · rw [List.eq_of_mem_replicate hr]; decide
  · exact natDigits_digit _ c hd

theorem scaledCanonBody_shape (a e : ℕ) :
    ∃ c t, scaledCanonBody a e = c :: t ∧ c.isDigit = true ∧
      (scaledCanonBody a e).all isDigitOrDot = true ∧ (scaledCanonBody a e).count '.' ≤ 1 := by
  have hdi : ∀ c ∈ natDigits (a / 10 ^ e), c.isDigit = true :=
    fun c hc => natDigits_digit _ c hc
  obtain ⟨c, t, hcons⟩ : ∃ c t, natDigits (a / 10 ^ e) = c :: t := by
    cases hnd : natDigits (a / 10 ^ e) with
    | nil => exact absurd hnd (natDigits_ne_nil _)
    | cons x y => exact ⟨x, y, rfl⟩
  have hc : c.isDigit = true := hdi c (by rw [hcons]; exact List.mem_cons_self _ _)
  unfold scaledCanonBody
  by_cases hfe : canonFrac a e = []
  · rw [if_pos hfe]
    exact ⟨c, t, hcons, hc, all_isDigitOrDot_of_digits hdi, by rw [count_dot_zero hdi]; omega⟩
  · rw [if_neg hfe]
    refine ⟨c, t ++ '.' :: canonFrac a e, by rw [hcons]; rfl, hc, ?_, ?_⟩
    · rw [List.all_append, all_isDigitOrDot_of_digits hdi]
      simp only [Bool.true_and, List.all_cons, Bool.and_eq_true]
      exact ⟨by decide, all_isDigitOrDot_of_digits (canonFrac_digit a e)⟩
    · rw [List.count_append, List.count_cons, count_dot_zero hdi,
        count_dot_zero (canonFrac_digit a e)]
      decide

theorem scaledCanon_DispL (n : ℤ) (e : ℕ) : DispL (scaledCanon n e).data := by
  obtain ⟨c, t, hcons, hc, hall, hcount⟩ := scaledCanonBody_shape n.natAbs e
  have hb := dispL_of_digit_head _ c t hcons hc hall hcount
  unfold scaledCanon
  by_cases hneg : n < 0
  · rw [if_pos hneg]
    exact hb.2
  · rw [if_neg hneg]
    exact hb.1

theorem fmtFixed_DispL (e : ℕ) (x : Option ℚ) : DispL (fmtFixed e x).data := by
  cases x with
  | none => show DispL ("NaN" : String).data; decide
  | some q => exact scaledCanon_DispL _ _

theorem ratToStr_DispL (q : ℚ) : DispL (ratToStr q).data := by
  unfold ratToStr
  dsimp only
  split_ifs <;> exact scaledCanon_DispL _ _

theorem jsStr_DispL (x : Option ℚ) : DispL (jsStr x).data := by
  cases x with
  | none => show DispL ("NaN" : String).data; decide
  | some q => exact ratToStr_DispL q

theorem calculate_DispL (sv : Option String) (r p : String) (h : DispL r.data) :
    DispL (App.calculate sv r p).data := by
  unfold App.calculate
  dsimp only
  split_ifs <;> first
    | exact h
    | exact fmtFixed_DispL _ _
    | decide

theorem all_of_sublist {p : Char → Bool} {l' l : List Char} (hs : List.Sublist l' l)
    (h : l.all p = true) : l'.all p = true := by
  rw [List.all_eq_true] at h
  rw [List.all_eq_true]
  exact fun x hx => h x (hs.subset hx)

theorem count_zero_of_contains_false (l : List Char) (h : l.contains '.' = false) :
    l.count '.' = 0 := by
  rw [List.count_eq_zero]
  intro hm
  have he : l.elem '.' = true := List.elem_iff.mpr hm
  rw [show l.contains '.' = l.elem '.' from rfl, he] at h
  cases h

theorem count_singleton_ne {c : Char} (h : ¬ c = '.') : List.count '.' [c] = 0 := by
  rw [List.count_eq_zero]
  intro hm
  cases hm with
  | head => exact h rfl
  | tail _ hm2 => cases hm2

theorem DispL_push (l : List Char) (c : Char) (hD : DispL l)
    (hc : c.isDigit = true ∨ (c = '.' ∧ l.count '.' = 0)) : DispL (l ++ [c]) := by
  obtain ⟨hne, hcount, hclass⟩ := hD
  obtain ⟨h0, t, hcons⟩ : ∃ h0 t, l = h0 :: t := by
    cases l with
    | nil => exact absurd rfl hne
    | cons a b => exact ⟨a, b, rfl⟩
  have hcd : isDigitOrDot c = true := by
    rcases hc with hdig | ⟨hdot, _⟩
    · unfold isDigitOrDot
      rw [hdig]
      rfl
    · subst hdot
      decide
  refine ⟨by rw [hcons]; simp, ?_, ?_⟩
  · rw [List.count_append]
    rcases hc with hdig | ⟨hdot, hzero⟩
    · rw [count_singleton_ne (digit_ne_dot hdig)]
      omega
    · subst hdot
      rw [hzero]
      decide
  · rcases hclass with hnum | hjunk
    · left
      unfold NumWFb at hnum ⊢
      rw [hcons] at hnum ⊢
      rw [List.cons_append]
      by_cases hm : h0 = '-'
      · subst hm
        rw [stripMinus_minus] at hnum ⊢
        rw [List.all_append, hnum]
        simp [hcd]
      · rw [stripMinus_of_head_ne hm] at hnum ⊢
        rw [← List.cons_append, List.all_append, hnum]
        simp [hcd]
    · right
      unfold JunkHeadb at hjunk ⊢
      rw [hcons] at hjunk ⊢
      rw [List.cons_append]
      exact hjunk

theorem DispL_dropLast (l : List Char) (hD : DispL l) (hlen : 1 < l.length) :
    DispL l.dropLast := by
  obtain ⟨hne, hcount, hclass⟩ := hD
  obtain ⟨a, b, r, hcons⟩ : ∃ a b r, l = a :: b :: r := by
    cases l with
    | nil => exact absurd rfl hne
    | cons x y =>
        cases y with
        | nil => simp at hlen
        | cons u v => exact ⟨x, u, v, rfl⟩
  have hdl : l.dropLast = a :: (b :: r).dropLast := by rw [hcons]; rfl
  refine ⟨by rw [hdl]; simp, ?_, ?_⟩
  · calc l.dropLast.count '.' ≤ l.count '.' := (List.dropLast_sublist l).count_le '.'
      _ ≤ 1 := hcount
  · rcases hclass with hnum | hjunk
    · left
      unfold NumWFb at hnum ⊢
      rw [hcons] at hnum
      rw [hdl]
      by_cases hm : a = '-'
      · subst hm
        rw [stripMinus_minus] at hnum ⊢
        exact all_of_sublist (List.dropLast_sublist _) hnum
      · rw [stripMinus_of_head_ne hm] at hnum ⊢
        exact all_of_sublist (List.dropLast_sublist (a :: b :: r)) hnum
    · right
      rw [hcons] at hjunk
      rw [hdl]
      exact hjunk

theorem digitChar_isDigit (d : Fin 10) : (Nat.digitChar d.val).isDigit = true := by
  revert d
  decide

theorem digitChar_ne_dot (d : Fin 10) : ¬ Nat.digitChar d.val = '.' :=
  digit_ne_dot (digitChar_isDigit d)

theorem DispL_single (c : Char) (hc : c.isDigit = true) : DispL [c] := by
  refine ⟨by simp, by rw [count_singleton_ne (digit_ne_dot hc)]; omega, Or.inl ?_⟩
  unfold NumWFb
  rw [stripMinus_of_head_ne (digit_ne_minus hc)]
  simp [isDigitOrDot, hc]

theorem opSym_cases (o : App.Op) :
    App.opSym o = "+" ∨ App.opSym o = "-" ∨ App.opSym o = "×" ∨ App.opSym o = "÷" := by
  cases o <;> simp [App.opSym]

theorem invD_step : ∀ (e : App.Ev) (s : App.CalcState), App.InvD s → App.InvD (App.step e s) := by
  intro e s h
  cases e with
  | digit d =>
      rw [step_digit]
      unfold App.handleDigit
      split_ifs with h1 h2 h3
      · exact ⟨DispL_single _ (digitChar_isDigit d), h.2⟩
      · exact ⟨DispL_single _ (digitChar_isDigit d), h.2⟩
      · exact ⟨DispL_single _ (digitChar_isDigit d), h.2⟩
      · exact ⟨DispL_push _ _ h.1 (Or.inl (digitChar_isDigit d)), h.2⟩
  | dot =>
      rw [step_dot]
      unfold App.handleDot
      split_ifs with h1 h2
      · exact ⟨by show DispL ("0." : String).data; decide, h.2⟩
      · exact ⟨DispL_push _ _ h.1 (Or.inr ⟨rfl, count_zero_of_contains_false _ h2⟩), h.2⟩
      · exact h
  | op o =>
      rw [step_op]
      unfold App.handleOperator
      dsimp only
      split_ifs with h1 h2 h3
      · exact h
      · exact ⟨by show DispL ("Error" : String).data; decide, fun p hp => Option.noConfusion hp⟩
      · refine ⟨calculate_DispL _ _ _ h.1, fun p hp => ?_⟩
        have hps := Option.some.inj hp
        rw [← hps]
        exact opSym_cases o
      · refine ⟨h.1, fun p hp => ?_⟩
        have hps := Option.some.inj hp
        rw [← hps]
        exact opSym_cases o
  | eq =>
      rw [step_eq]
      unfold App.handleEqual
      split_ifs with h1
      · exact ⟨calculate_DispL _ _ _ h.1, fun p hp => Option.noConfusion hp⟩
      · exact h
  | clear =>
      exact ⟨by show DispL ("0" : String).data; decide, fun p hp => Option.noConfusion hp⟩
  | back =>
      rw [step_back]
      unfold App.handleBackspace
      split_ifs with h1 h2
      · exact h
      · exact ⟨DispL_dropLast _ h.1 h2, h.2⟩
      · exact ⟨by show DispL ("0" : String).data; decide, h.2⟩
  | percent =>
      rw [step_percent]
      unfold App.handlePercentage
      split_ifs with h1
      · exact h
      · exact ⟨jsStr_DispL _, h.2⟩
  | sign =>
      rw [step_sign]
      unfold App.handleSignToggle
      split_ifs with h1
      · exact h
      · exact ⟨jsStr_DispL _, h.2⟩

theorem invD_init : App.InvD App.initState :=
  ⟨by decide, fun p hp => Option.noConfusion hp⟩

theorem invD_reachable (s : App.CalcState) (h : App.Reachable s) : App.InvD s := by
  obtain ⟨evs, rfl⟩ := h
  exact invariant_runFrom invD_step evs App.initState invD_init

/-- C6 (counterexample): in the App.tsx engine the claimed unconditional
no-op fails when the overwrite flag is set.  After `1 . 5 +` the display is
`"1.5"` (it contains a decimal point) and the engine is waiting for an
operand; pressing the decimal point then replaces the display with the
fresh operand `"0."` instead of leaving the state unchanged. -/
theorem claim6_counterexample :
    (App.run [.digit 1, .dot, .digit 5, .op .add]).display = "1.5" ∧
    (App.run [.digit 1, .dot, .digit 5, .op .add]).display.data.contains '.' = true ∧
    (App.handleDot (App.run [.digit 1, .dot, .digit 5, .op .add])).display = "0." ∧
    ¬ App.handleDot (App.run [.digit 1, .dot, .digit 5, .op .add])
        = App.run [.digit 1, .dot, .digit 5, .op .add] := by
  refine ⟨by decide, by decide, by decide, by decide⟩

/-- C6 (amended): no event sequence ever leaves a display with two decimal
points; a decimal point entered while the current operand already contains
one is a no-op when the overwrite flag is clear (in the part_000 engine the
dot guard runs first, so it is a no-op unconditionally); with the flag set,
the App.tsx engine instead starts the fresh operand `"0."`. -/
theorem claim6_amended :
    (∀ evs : List App.Ev, (App.run evs).display.data.count '.' ≤ 1) ∧
    (∀ s : App.CalcState, s.waitingForOperand = false →
      s.display.data.contains '.' = true → App.handleDot s = s) ∧
    (∀ s : App.CalcState, s.waitingForOperand = true → (App.handleDot s).display = "0.") ∧
    (∀ t : V0.V0State, t.currentOperand.data.contains '.' = true →
      V0.appendNumber '.' t = t) := by
  refine ⟨fun evs => ?_, fun s h1 h2 => ?_, fun s h1 => ?_, fun t h1 => ?_⟩
  · exact (invD_reachable (App.run evs) ⟨evs, rfl⟩).1.2.1
  · unfold App.handleDot
    rw [if_neg (by simp [h1]), if_neg (by rw [h2]; decide)]
  · unfold App.handleDot
    rw [if_pos h1]
  · unfold V0.appendNumber
    rw [if_pos ⟨rfl, h1⟩]

/-- Witness for C6 (amended) at concrete inputs: the trace `1 . 5` has one
decimal point in its display; from that state (overwrite clear, dot
present) a further dot is a no-op; after an operator the flag is set and a
dot yields `"0."`; and the part_000 state after `1 .` ignores another
dot. -/
theorem claim6_amended_witness :
    (App.run [.digit 1, .dot, .digit 5]).display.data.count '.' ≤ 1 ∧
    App.handleDot (App.run [.digit 1, .dot, .digit 5]) = App.run [.digit 1, .dot, .digit 5] ∧
    (App.handleDot (App.run [.digit 1, .dot, .digit 5, .op .add])).display = "0." ∧
    V0.appendNumber '.' (V0.run [.digit 1, .dot]) = V0.run [.digit 1, .dot] :=
  ⟨claim6_amended.1 [.digit 1, .dot, .digit 5],
   claim6_amended.2.1 (App.run [.digit 1, .dot, .digit 5]) (by decide) (by decide),
   claim6_amended.2.2.1 (App.run [.digit 1, .dot, .digit 5, .op .add]) (by decide),
   claim6_amended.2.2.2 (V0.run [.digit 1, .dot]) (by decide)⟩

theorem parseSign_minus (t : List Char) : parseSign ('-' :: t) = (true, t) := by
  show (if '-' = '-' then ((true, t) : Bool × List Char)
    else if '-' = '+' then (false, t) else (false, '-' :: t)) = (true, t)
  rw [if_pos rfl]

theorem parseSign_of_ne (c : Char) (t : List Char) (h1 : ¬ c = '-') (h2 : ¬ c = '+') :
    parseSign (c :: t) = (false, c :: t) := by
  show (if c = '-' then ((true, t) : Bool × List Char)
    else if c = '+' then (false, t) else (false, c :: t)) = (false, c :: t)
  rw [if_neg h1, if_neg h2]

theorem fracPart_dot (t : List Char) : fracPart ('.' :: t) = t.takeWhile Char.isDigit := by
  show (if '.' = '.' then t.takeWhile Char.isDigit else []) = t.takeWhile Char.isDigit
  rw [if_pos rfl]

theorem fracPart_of_ne (c : Char) (t : List Char) (h : ¬ c = '.') : fracPart (c :: t) = [] := by
  show (if c = '.' then t.takeWhile Char.isDigit else []) = []
  rw [if_neg h]

theorem parseFloatQ_eval (L : List Char) :
    parseFloatQ (String.mk L) =
      if (parseSign L).2.takeWhile Char.isDigit = [] ∧
          fracPart ((parseSign L).2.dropWhile Char.isDigit) = [] then none
      else some (if (parseSign L).1 then
          qNeg (mkRat (digitsToNat ((parseSign L).2.takeWhile Char.isDigit ++
              fracPart ((parseSign L).2.dropWhile Char.isDigit)))
            (10 ^ (fracPart ((parseSign L).2.dropWhile Char.isDigit)).length))
        else mkRat (digitsToNat ((parseSign L).2.takeWhile Char.isDigit ++
              fracPart ((parseSign L).2.dropWhile Char.isDigit)))
            (10 ^ (fracPart ((parseSign L).2.dropWhile Char.isDigit)).length)) := rfl

theorem takeWhile_append_all {p : Char → Bool} (xs ys : List Char)
    (h : ∀ c ∈ xs, p c = true) : (xs ++ ys).takeWhile p = xs ++ ys.takeWhile p := by
  induction xs with
  | nil => simp
  | cons a t ih =>
      rw [List.cons_append, List.takeWhile_cons_of_pos (h a (List.mem_cons_self a t)),
        ih (fun c hc => h c (List.mem_cons_of_mem a hc)), List.cons_append]

theorem dropWhile_append_all {p : Char → Bool} (xs ys : List Char)
    (h : ∀ c ∈ xs, p c = true) : (xs ++ ys).dropWhile p = ys.dropWhile p := by
  induction xs with
  | nil => simp
  | cons a t ih =>
      rw [List.cons_append, List.dropWhile_cons_of_pos (h a (List.mem_cons_self a t)),
        ih (fun c hc => h c (List.mem_cons_of_mem a hc))]

theorem takeWhile_of_all {p : Char → Bool} (xs : List Char)
    (h : ∀ c ∈ xs, p c = true) : xs.takeWhile p = xs := by
  induction xs with
  | nil => rfl
  | cons a t ih =>
      rw [List.takeWhile_cons_of_pos (h a (List.mem_cons_self a t)),
        ih (fun c hc => h c (List.mem_cons_of_mem a hc))]

theorem dropWhile_of_all {p : Char → Bool} (xs : List Char)
    (h : ∀ c ∈ xs, p c = true) : xs.dropWhile p = [] := by
  induction xs with
  | nil => rfl
  | cons a t ih =>
      rw [List.dropWhile_cons_of_pos (h a (List.mem_cons_self a t)),
        ih (fun c hc => h c (List.mem_cons_of_mem a hc))]

theorem digits_of_no_dot (l : List Char) (hall : l.all isDigitOrDot = true)
    (hcount : l.count '.' = 0) : ∀ c ∈ l, c.isDigit = true := by
  intro c hc
  have hdd := List.all_eq_true.mp hall c hc
  simp only [isDigitOrDot, Bool.or_eq_true, beq_iff_eq] at hdd
  rcases hdd with hd | hd
  · exact hd
  · subst hd
    exact absurd hc (List.count_eq_zero.mp hcount)

theorem splitDot : ∀ l : List Char, l.all isDigitOrDot = true → l.count '.' ≤ 1 →
    (∀ c ∈ l, c.isDigit = true) ∨
    ∃ b1 b2, l = b1 ++ '.' :: b2 ∧ (∀ c ∈ b1, c.isDigit = true) ∧
      (∀ c ∈ b2, c.isDigit = true) := by
  intro l
  induction l with
  | nil =>
      intro _ _
      left
      intro c hc
      cases hc
  | cons a t ih =>
      intro hall hcount
      rw [List.all_cons, Bool.and_eq_true] at hall
      have ha : isDigitOrDot a = true := hall.1
      have ht : t.all isDigitOrDot = true := hall.2
      rw [List.count_cons] at hcount
      by_cases had : a = '.'
      · subst had
        right
        refine ⟨[], t, rfl, fun c hc => absurd hc (List.not_mem_nil c), ?_⟩
        have hz : t.count '.' = 0 := by
          have he : (('.' : Char) == '.') = true := by decide
          rw [he, if_pos rfl] at hcount
          omega
        exact digits_of_no_dot t ht hz
      · have hadig : a.isDigit = true := by
          simp only [isDigitOrDot, Bool.or_eq_true, beq_iff_eq] at ha
          rcases ha with hd | hd
          · exact hd
          · exact absurd hd had
        have hct : t.count '.' ≤ 1 := by omega
        rcases ih ht hct with hd | ⟨b1, b2, heq, hb1, hb2⟩
        · left
          intro c hc
          rcases List.mem_cons.mp hc with rfl | hm
          · exact hadig
          · exact hd c hm
        · right
          refine ⟨a :: b1, b2, by rw [heq]; rfl, ?_, hb2⟩
          intro c hc
          rcases List.mem_cons.mp hc with rfl | hm
          · exact hadig
          · exact hb1 c hm

theorem digitsToNat_concat (l : List Char) (c : Char) :
    digitsToNat (l ++ [c]) = digitsToNat l * 10 + dval c := by
  unfold digitsToNat
  rw [List.foldl_append]
  rfl

theorem parse_body_core (b : List Char) (hall : b.all isDigitOrDot = true)
    (hcount : b.count '.' ≤ 1) :
    ¬ ((b ++ ['5']).takeWhile Char.isDigit = [] ∧
        fracPart ((b ++ ['5']).dropWhile Char.isDigit) = []) ∧
    digitsToNat ((b ++ ['5']).takeWhile Char.isDigit ++
        fracPart ((b ++ ['5']).dropWhile Char.isDigit)) % 10 = 5 := by
  rcases splitDot b hall hcount with hd | ⟨b1, b2, heq, hb1, hb2⟩
  · have h5 : ∀ c ∈ b ++ ['5'], c.isDigit = true := by
      intro c hc
      rcases List.mem_append.mp hc with hm | hm
      · exact hd c hm
      · have : c = '5' := by
          cases hm with
          | head => rfl
          | tail _ h2 => cases h2
        subst this
        decide
    rw [takeWhile_of_all _ h5, dropWhile_of_all _ h5]
    refine ⟨fun hc => by simp at hc, ?_⟩
    show digitsToNat (b ++ ['5'] ++ fracPart []) % 10 = 5
    rw [show fracPart [] = [] from rfl, List.append_nil, digitsToNat_concat]
    have : dval '5' = 5 := by decide
    rw [this]
    omega
  · subst heq
    have hshape : b1 ++ '.' :: b2 ++ ['5'] = b1 ++ '.' :: (b2 ++ ['5']) := by
      rw [List.append_assoc]
      rfl
    rw [hshape, takeWhile_append_all b1 _ hb1, dropWhile_append_all b1 _ hb1]
    have hdot1 : ¬ Char.isDigit '.' = true := by decide
    rw [List.takeWhile_cons_of_neg hdot1, List.dropWhile_cons_of_neg hdot1, fracPart_dot]
    have h25 : ∀ c ∈ b2 ++ ['5'], c.isDigit = true := by
      intro c hc
      rcases List.mem_append.mp hc with hm | hm
      · exact hb2 c hm
      · have : c = '5' := by
          cases hm with
          | head => rfl
          | tail _ h2 => cases h2
        subst this
        decide
    rw [takeWhile_of_all _ h25]
    refine ⟨fun hc => by have h2 := hc.2; simp at h2, ?_⟩
    rw [List.append_nil, ← List.append_assoc, digitsToNat_concat]
    have : dval '5' = 5 := by decide
    rw [this]
    omega

theorem mkRat_pow_ne_zero (m k : ℕ) (hm : ¬ m = 0) : ¬ (mkRat (m : ℤ) (10 ^ k) : ℚ) = 0 := by
  intro h0
  have hd : (10 : ℕ) ^ k ≠ 0 := by positivity
  rw [Rat.mkRat_eq_zero hd] at h0
  exact hm (by exact_mod_cast h0)

theorem qNeg_ne_zero (v : ℚ) (h : ¬ v = 0) : ¬ qNeg v = 0 := by
  unfold qNeg
  intro h0
  rw [Rat.mkRat_eq_zero v.den_nz] at h0
  apply h
  have hnum : v.num = 0 := by omega
  exact Rat.num_eq_zero.mp hnum

theorem parse_push5 (l : List Char) (hD : l = [] ∨ DispL l) :
    ¬ parseFloatQ (String.mk (l ++ ['5'])) = some 0 := by
  rcases hD with rfl | ⟨hne, hcount, hclass⟩
  · decide
  · obtain ⟨h0, t, hcons⟩ : ∃ h0 t, l = h0 :: t := by
      cases l with
      | nil => exact absurd rfl hne
      | cons a b => exact ⟨a, b, rfl⟩
    subst hcons
    rcases hclass with hnum | hjunk
    · unfold NumWFb at hnum
      by_cases hm : h0 = '-'
      · subst hm
        rw [stripMinus_minus] at hnum
        have hct : t.count '.' ≤ 1 := by
          rw [List.count_cons] at hcount
          omega
        obtain ⟨hne2, hmod⟩ := parse_body_core t hnum hct
        intro hz
        rw [show ('-' :: t) ++ ['5'] = '-' :: (t ++ ['5']) from rfl,
          parseFloatQ_eval, parseSign_minus] at hz
        dsimp only at hz
        rw [if_neg hne2, if_pos rfl] at hz
        have hv := Option.some.inj hz
        have hm0 : ¬ digitsToNat ((t ++ ['5']).takeWhile Char.isDigit ++
            fracPart ((t ++ ['5']).dropWhile Char.isDigit)) = 0 := by omega
        exact qNeg_ne_zero _ (mkRat_pow_ne_zero _ _ hm0) hv
      · rw [stripMinus_of_head_ne hm] at hnum
        have hnum2 := hnum
        rw [List.all_cons, Bool.and_eq_true] at hnum2
        have hh0 : isDigitOrDot h0 = true := hnum2.1
        have hp : ¬ h0 = '+' := by
          simp only [isDigitOrDot, Bool.or_eq_true, beq_iff_eq] at hh0
          rcases hh0 with hd | hd
          · exact digit_ne_plus hd
          · subst hd; decide
        obtain ⟨hne2, hmod⟩ := parse_body_core (h0 :: t) hnum hcount
        intro hz
        rw [show (h0 :: t) ++ ['5'] = h0 :: (t ++ ['5']) from rfl,
          parseFloatQ_eval, parseSign_of_ne h0 (t ++ ['5']) hm hp] at hz
        dsimp only at hz
        rw [show h0 :: (t ++ ['5']) = (h0 :: t) ++ ['5'] from rfl] at hz
        rw [if_neg hne2] at hz
        rw [if_neg (by decide : ¬ (false = true))] at hz
        have hv := Option.some.inj hz
        have hm0 : ¬ digitsToNat (((h0 :: t) ++ ['5']).takeWhile Char.isDigit ++
            fracPart (((h0 :: t) ++ ['5']).dropWhile Char.isDigit)) = 0 := by omega
        exact mkRat_pow_ne_zero _ _ hm0 hv
    · unfold JunkHeadb at hjunk
      simp only [Bool.and_eq_true, Bool.not_eq_eq_eq_not, Bool.not_true, beq_eq_false_iff_ne,
        ne_eq] at hjunk
      obtain ⟨⟨⟨hdig, hmin⟩, hplus⟩, hdot⟩ := hjunk
      intro hz
      rw [show (h0 :: t) ++ ['5'] = h0 :: (t ++ ['5']) from rfl,
        parseFloatQ_eval, parseSign_of_ne h0 (t ++ ['5']) hmin hplus] at hz
      dsimp only at hz
      rw [List.takeWhile_cons_of_neg (by rw [hdig]; decide),
        List.dropWhile_cons_of_neg (by rw [hdig]; decide),
        fracPart_of_ne h0 _ hdot] at hz
      rw [if_pos ⟨rfl, rfl⟩] at hz
      cases hz

theorem scaledCanon_ne (n : ℤ) (e : ℕ) :
    ¬ scaledCanon n e = "Error" ∧ ¬ scaledCanon n e = "" := by
  obtain ⟨c, t, hcons, hc, _, _⟩ := scaledCanonBody_shape n.natAbs e
  unfold scaledCanon
  constructor
  · intro h
    have hd := congrArg String.data h
    by_cases hneg : n < 0
    · rw [if_pos hneg] at hd
      have hd2 : '-' :: scaledCanonBody n.natAbs e = ['E', 'r', 'r', 'o', 'r'] := hd
      injection hd2 with h1 _
      exact absurd h1 (by decide)
    · rw [if_neg hneg] at hd
      have hd2 : scaledCanonBody n.natAbs e = ['E', 'r', 'r', 'o', 'r'] := hd
      rw [hcons] at hd2
      injection hd2 with h1 _
      rw [h1] at hc
      exact absurd hc (by decide)
  · intro h
    have hd := congrArg String.data h
    by_cases hneg : n < 0
    · rw [if_pos hneg] at hd
      have hd2 : '-' :: scaledCanonBody n.natAbs e = [] := hd
      cases hd2
    · rw [if_neg hneg] at hd
      have hd2 : scaledCanonBody n.natAbs e = [] := hd
      rw [hcons] at hd2
      cases hd2

theorem fmtFixed_ne (e : ℕ) (x : Option ℚ) :
    ¬ fmtFixed e x = "Error" ∧ ¬ fmtFixed e x = "" := by
  cases x with
  | none =>
      exact ⟨by show ¬ ("NaN" : String) = "Error"; decide, by show ¬ ("NaN" : String) = ""; decide⟩
  | some q => exact scaledCanon_ne _ _

theorem calculate_ne (sv : Option String) (r p : String) (hrE : ¬ r = "Error")
    (hrN : ¬ r = "") (hr0 : ¬ parseFloatQ r = some 0) :
    ¬ App.calculate sv r p = "Error" ∧ ¬ App.calculate sv r p = "" := by
  unfold App.calculate
  dsimp only
  split_ifs with h1 h2 h3 h4 h5
  · exact ⟨hrE, hrN⟩
  · exact fmtFixed_ne _ _
  · exact fmtFixed_ne _ _
  · exact fmtFixed_ne _ _
  · exact fmtFixed_ne _ _
  · exact ⟨hrE, hrN⟩

theorem mk_append5_ne_error (w : List Char) : ¬ String.mk (w ++ ['5']) = "Error" := by
  intro h
  have hd : w ++ ['5'] = ['E', 'r', 'r', 'o', 'r'] := congrArg String.data h
  have h1 : (w ++ ['5']).getLast? = some '5' := List.getLast?_concat w
  rw [hd] at h1
  exact absurd h1 (by decide)

theorem mk_append_ne_empty (w : List Char) (c : Char) : ¬ String.mk (w ++ [c]) = "" := by
  intro h
  have hd : w ++ [c] = [] := congrArg String.data h
  simp at hd

theorem truthyS_some_of_ne {v : String} (h : ¬ v = "") : App.truthyS (some v) = true := by
  unfold App.truthyS
  simp [h]

theorem calculate_div_zero (sv : Option String) (hsv : App.truthyS sv = true) :
    App.calculate sv (String.mk ['0']) "÷" = "Error" := by
  unfold App.calculate
  rw [if_neg (by rw [hsv]; decide)]
  dsimp only
  rw [if_neg (by decide : ¬ ("÷" : String) = "+"),
    if_neg (by decide : ¬ ("÷" : String) = "-"),
    if_neg (by decide : ¬ (("÷" : String) = "×" ∨ ("÷" : String) = "*")),
    if_pos (by decide : ("÷" : String) = "÷" ∨ ("÷" : String) = "/"),
    if_pos (by decide : parseFloatQ (String.mk ['0']) = some 0)]

theorem claim1_body (s : App.CalcState) (h : App.InvD s) :
    (App.handleEqual (App.handleDigit '0'
        (App.handleOperator "÷" (App.handleDigit '5' s)))).display = "Error" ∧
    (App.handleEqual (App.handleDigit '0'
        (App.handleOperator "÷" (App.handleDigit '5' s)))).savedValue = none ∧
    (App.handleEqual (App.handleDigit '0'
        (App.handleOperator "÷" (App.handleDigit '5' s)))).pendingOperator = none := by
  obtain ⟨hD, _⟩ := h
  obtain ⟨w, hw, hwD⟩ : ∃ w, (App.handleDigit '5' s).display = String.mk (w ++ ['5']) ∧
      (w = [] ∨ DispL w) := by
    unfold App.handleDigit
    split_ifs
    · exact ⟨[], rfl, Or.inl rfl⟩
    · exact ⟨[], rfl, Or.inl rfl⟩
    · exact ⟨[], rfl, Or.inl rfl⟩
    · exact ⟨s.display.data, rfl, Or.inr hD⟩
  have h1e : ¬ (App.handleDigit '5' s).display = "Error" := by
    rw [hw]
    exact mk_append5_ne_error w
  have h1n : ¬ (App.handleDigit '5' s).display = "" := by
    rw [hw]
    exact mk_append_ne_empty w '5'
  have h10 : ¬ parseFloatQ (App.handleDigit '5' s).display = some 0 := by
    rw [hw]
    exact parse_push5 w hwD
  set s2 := App.handleOperator "÷" (App.handleDigit '5' s) with hs2
  have h2 : s2.pendingOperator = some "÷" ∧ s2.waitingForOperand = true ∧
      App.truthyS s2.savedValue = true ∧ ¬ s2.display = "Error" := by
    rw [hs2]
    unfold App.handleOperator
    rw [if_neg h1e]
    dsimp only
    split_ifs with hg hErr
    · exact absurd hErr (calculate_ne _ _ _ h1e h1n h10).1
    · exact ⟨rfl, rfl, truthyS_some_of_ne (calculate_ne _ _ _ h1e h1n h10).2,
        (calculate_ne _ _ _ h1e h1n h10).1⟩
    · exact ⟨rfl, rfl, truthyS_some_of_ne h1n, h1e⟩
  have h3 : App.handleDigit '0' s2 =
      { s2 with display := String.mk ['0'], waitingForOperand := false } := by
    unfold App.handleDigit
    rw [if_neg h2.2.2.2, if_pos h2.2.1]
  rw [h3]
  have hres : App.calculate s2.savedValue (String.mk ['0']) (s2.pendingOperator.getD "")
      = "Error" := by
    rw [h2.1]
    show App.calculate s2.savedValue (String.mk ['0']) "÷" = "Error"
    exact calculate_div_zero s2.savedValue h2.2.2.1
  unfold App.handleEqual
  rw [if_pos ⟨h2.2.2.1,
    by show App.truthyS s2.pendingOperator = true; rw [h2.1]; decide,
    by show ¬ (String.mk ['0'] : String) = "Error"; decide⟩]
  exact ⟨hres, rfl, rfl⟩

/-- C1: from every reachable state of the App.tsx engine, entering the
digit 5, choosing the divide operator, entering the digit 0 and evaluating
leaves the display at the `"Error"` sentinel with the previous operand and
the pending operator cleared.  Entering 5 always puts a `5` at the end of a
well-formed display, so neither the fold inside the operator press nor the
final evaluation can make the right-hand operand anything but the freshly
typed `0`, and dividing by it raises the sentinel. -/
theorem claim1_div_by_zero :
    ∀ s : App.CalcState, App.Reachable s →
      (App.step .eq (App.step (.digit 0) (App.step (.op .div)
          (App.step (.digit 5) s)))).display = "Error" ∧
      (App.step .eq (App.step (.digit 0) (App.step (.op .div)
          (App.step (.digit 5) s)))).savedValue = none ∧
      (App.step .eq (App.step (.digit 0) (App.step (.op .div)
          (App.step (.digit 5) s)))).pendingOperator = none := by
  intro s hs
  exact claim1_body s (invD_reachable s hs)

/-- Witness for C1 at the initial state: `5 ÷ 0 =` from a fresh calculator
raises the sentinel and clears the pending operation. -/
theorem claim1_witness :
    (App.step .eq (App.step (.digit 0) (App.step (.op .div)
        (App.step (.digit 5) App.initState)))).display = "Error" ∧
    (App.step .eq (App.step (.digit 0) (App.step (.op .div)
        (App.step (.digit 5) App.initState)))).savedValue = none ∧
    (App.step .eq (App.step (.digit 0) (App.step (.op .div)
        (App.step (.digit 5) App.initState)))).pendingOperator = none :=
  claim1_div_by_zero App.initState ⟨[], rfl⟩
